import Mathlib

/-!
Verification of the corona-stats data pipeline (`src/data.rs`) against its
natural-language specification.

The embedding models, faithfully to the source:
* the chrono date/time parsing used by `parse_date` (four strftime patterns,
  numeric items scanned with flexible width, whitespace skipped before
  numeric items and at `Item::Space`, full-input consumption required,
  field-range validation on resolution, the POSIX-style two-digit-year pivot
  for `%y`, and the `%Y < 2000 → +2000` correction that rebuilds the date via
  the panicking `NaiveDate::from_ymd`, modelled as `Option`);
* Rust `u32`/`i32` `FromStr` (optional sign, decimal digits, overflow check);
* `normalize` / `to_record` over positional CSV rows;
* the time-series wide-row loop with its `BTreeMap` insert/lookup/remove;
* `get_dates` (while-loop from 2020-01-22 up to and including "today");
* `get_data` with the fetch effect as an explicit `Except`-valued oracle.

Floating-point coordinate parsing (`parse::<f32>`) is left abstract: the
record fields `lat`/`long` are `Option F` for a caller-supplied parser
`String → Option F`; no verified property inspects float values.
-/

namespace CoronaStats

/-! ## Characters and digit scanning (chrono `scan::number`) -/

/-- The decimal digit character for `n < 10` (codepoint `48 + n`). -/
def dChar (n : Nat) : Char := Char.ofNat (48 + n)

/-- Decimal digit test/value, as chrono's byte-wise `b'0'..=b'9'` scan. -/
def digit? (c : Char) : Option Nat :=
  if 48 ≤ c.toNat ∧ c.toNat ≤ 57 then some (c.toNat - 48) else none

/-- Unicode White_Space characters, as Rust's `char::is_whitespace` used by
chrono's trimming before numeric and space items. -/
def wsChar (c : Char) : Bool :=
  (9 ≤ c.toNat ∧ c.toNat ≤ 13) ∨ c.toNat = 32 ∨ c.toNat = 133 ∨
  c.toNat = 160 ∨ c.toNat = 5760 ∨ (8192 ≤ c.toNat ∧ c.toNat ≤ 8202) ∨
  c.toNat = 8232 ∨ c.toNat = 8233 ∨ c.toNat = 8239 ∨ c.toNat = 8287 ∨
  c.toNat = 12288

/-- Skip leading whitespace, as chrono's `s.trim_left()` before numeric and
space items. -/
def skipWs (cs : List Char) : List Char := cs.dropWhile wsChar

/-- Consume up to `mx` further digits, accumulating the value; stops at the
first non-digit (chrono `scan::number`, continuation after the first digit). -/
def scanDigits : Nat → Nat → List Char → Nat × List Char
  | 0, acc, cs => (acc, cs)
  | _ + 1, acc, [] => (acc, [])
  | mx + 1, acc, c :: cs =>
    match digit? c with
    | some d => scanDigits mx (acc * 10 + d) cs
    | none => (acc, c :: cs)

/-- Scan an unsigned number of 1 to `mx` digits, with no trimming (chrono
`scan::number`). -/
def scanNum (mx : Nat) : List Char → Option (Nat × List Char)
  | [] => none
  | c :: cs' =>
    match digit? c with
    | some d => some (scanDigits (mx - 1) d cs')
    | none => none

/-- An unsigned numeric item: skip leading whitespace, then scan 1 to `mx`
digits. -/
def num (mx : Nat) (cs : List Char) : Option (Nat × List Char) :=
  scanNum mx (skipWs cs)

/-- Scan the `%Y` year item (chrono `Numeric::Year`): after trimming, an
optional `-`/`+` sign admits arbitrarily many digits (chrono errors on `i64`
overflow; here an overlarge year is instead rejected by the later range
check, with the same outward result), while an unsigned year is limited to 4
digits. After a sign the digits must follow immediately. -/
def pyear (cs : List Char) : Option (Int × List Char) :=
  match skipWs cs with
  | [] => none
  | c :: cs' =>
    if c = '-' then
      (scanNum cs'.length cs').map fun p => (-(p.1 : Int), p.2)
    else if c = '+' then
      (scanNum cs'.length cs').map fun p => ((p.1 : Int), p.2)
    else
      (scanNum 4 (c :: cs')).map fun p => ((p.1 : Int), p.2)

/-- Match one literal character exactly (chrono `Item::Literal`). -/
def lit (c : Char) : List Char → Option (List Char)
  | [] => none
  | x :: xs => if x = c then some xs else none

/-! ## Calendar model (chrono `NaiveDate` / `NaiveDateTime`) -/

/-- Proleptic Gregorian leap year, as chrono computes it. -/
def isLeap (y : Int) : Bool :=
  y % 4 = 0 ∧ (¬ y % 100 = 0 ∨ y % 400 = 0)

/-- Days in a month of a given year. -/
def daysInMonth (y : Int) (m : Nat) : Nat :=
  if m = 2 then (if isLeap y then 29 else 28)
  else if m = 4 ∨ m = 6 ∨ m = 9 ∨ m = 11 then 30
  else 31

/-- A calendar date, as `chrono::NaiveDate` (year, month, day). -/
structure Date where
  year : Int
  month : Nat
  day : Nat
deriving DecidableEq, Repr

/-- Validity of a y/m/d triple, including chrono's representable year range
(`MIN_YEAR = -262144`, `MAX_YEAR = 262143`). -/
def dateValid (y : Int) (m d : Nat) : Bool :=
  1 ≤ m ∧ m ≤ 12 ∧ 1 ≤ d ∧ d ≤ daysInMonth y m ∧ -262144 ≤ y ∧ y ≤ 262143

/-- Model of `NaiveDate::from_ymd_opt`; `from_ymd` is this followed by an unwrap, so
`none` stands for the panic. -/
def from_ymd_opt (y : Int) (m d : Nat) : Option Date :=
  if dateValid y m d then some ⟨y, m, d⟩ else none

/-- Successor calendar day, as `NaiveDate::succ`. -/
def Date.succ (x : Date) : Date :=
  if x.day < daysInMonth x.year x.month then ⟨x.year, x.month, x.day + 1⟩
  else if x.month < 12 then ⟨x.year, x.month + 1, 1⟩
  else ⟨x.year + 1, 1, 1⟩

/-- Calendar (lexicographic) strict order on dates. -/
def Date.lt (a b : Date) : Prop :=
  a.year < b.year ∨
    (a.year = b.year ∧
      (a.month < b.month ∨ (a.month = b.month ∧ a.day < b.day)))

instance (a b : Date) : Decidable (Date.lt a b) := by
  unfold Date.lt; infer_instance

/-- A date-time, as `chrono::NaiveDateTime` (to second precision; a parsed
leap second is stored, as in chrono, with `second () = 59`). -/
structure DateTime where
  date : Date
  hour : Nat
  minute : Nat
  second : Nat
deriving DecidableEq, Repr

/-- Resolution of parsed fields into a `NaiveDateTime`
(`Parsed::to_naive_datetime_with_offset` essentials): field ranges are
checked, a missing second has already been defaulted to 0 by the caller, and
a parsed second of 60 (leap second) is kept with `second () = 59`. -/
def mkDateTime (y : Int) (m d h mi s : Nat) : Option DateTime :=
  (from_ymd_opt y m d).bind fun dd =>
    if h ≤ 23 ∧ mi ≤ 59 ∧ s ≤ 60 then
      some ⟨dd, h, mi, if s = 60 then 59 else s⟩
    else none

/-- Resolution of a `%y` two-digit year (chrono's POSIX windowing:
0–68 → 2000s, 69–99 → 1900s). -/
def resolveY2 (q : Nat) : Int := if q < 69 then 2000 + q else 1900 + q

/-! ## The four strftime patterns of `parse_date` -/

/-- Parsing with the first pattern, `"%Y-%m-%dT%H:%M:%S"`. -/
def parseFmt1 (s : String) : Option DateTime :=
  (pyear s.data).bind fun yr =>
  (lit '-' yr.2).bind fun r1 =>
  (num 2 r1).bind fun mo =>
  (lit '-' mo.2).bind fun r2 =>
  (num 2 r2).bind fun dy =>
  (lit 'T' dy.2).bind fun r3 =>
  (num 2 r3).bind fun hh =>
  (lit ':' hh.2).bind fun r4 =>
  (num 2 r4).bind fun mi =>
  (lit ':' mi.2).bind fun r5 =>
  (num 2 r5).bind fun ss =>
  if ss.2.isEmpty then mkDateTime yr.1 mo.1 dy.1 hh.1 mi.1 ss.1 else none

/-- Parsing with the second pattern, `"%Y-%m-%d %H:%M:%S"`. -/
def parseFmt2 (s : String) : Option DateTime :=
  (pyear s.data).bind fun yr =>
  (lit '-' yr.2).bind fun r1 =>
  (num 2 r1).bind fun mo =>
  (lit '-' mo.2).bind fun r2 =>
  (num 2 r2).bind fun dy =>
  (num 2 (skipWs dy.2)).bind fun hh =>
  (lit ':' hh.2).bind fun r4 =>
  (num 2 r4).bind fun mi =>
  (lit ':' mi.2).bind fun r5 =>
  (num 2 r5).bind fun ss =>
  if ss.2.isEmpty then mkDateTime yr.1 mo.1 dy.1 hh.1 mi.1 ss.1 else none

/-- Parsing with the source's literal third pattern
`"%m/%d%y %H:%M"` — note there is no `/` between `%d` and `%y` in the
source. A missing second defaults to 0. -/
def parseFmt3 (s : String) : Option DateTime :=
  (num 2 s.data).bind fun mo =>
  (lit '/' mo.2).bind fun r1 =>
  (num 2 r1).bind fun dy =>
  (num 2 dy.2).bind fun yy =>
  (num 2 (skipWs yy.2)).bind fun hh =>
  (lit ':' hh.2).bind fun r4 =>
  (num 2 r4).bind fun mi =>
  if mi.2.isEmpty then mkDateTime (resolveY2 yy.1) mo.1 dy.1 hh.1 mi.1 0
  else none

/-- Parsing with the fourth pattern, `"%m/%d/%Y %H:%M"`. A missing
second defaults to 0. -/
def parseFmt4 (s : String) : Option DateTime :=
  (num 2 s.data).bind fun mo =>
  (lit '/' mo.2).bind fun r1 =>
  (num 2 r1).bind fun dy =>
  (lit '/' dy.2).bind fun r2 =>
  (pyear r2).bind fun yr =>
  (num 2 (skipWs yr.2)).bind fun hh =>
  (lit ':' hh.2).bind fun r4 =>
  (num 2 r4).bind fun mi =>
  if mi.2.isEmpty then mkDateTime yr.1 mo.1 dy.1 hh.1 mi.1 0 else none

/-- The pattern `"%m/%d/%y %H:%M"` that §4.2 of the spec names as the third
pattern (`MM/DD/YY HH:MM`), for comparison with the source's `parseFmt3`. -/
def parseFmt3Spec (s : String) : Option DateTime :=
  (num 2 s.data).bind fun mo =>
  (lit '/' mo.2).bind fun r1 =>
  (num 2 r1).bind fun dy =>
  (lit '/' dy.2).bind fun r2 =>
  (num 2 r2).bind fun yy =>
  (num 2 (skipWs yy.2)).bind fun hh =>
  (lit ':' hh.2).bind fun r4 =>
  (num 2 r4).bind fun mi =>
  if mi.2.isEmpty then mkDateTime (resolveY2 yy.1) mo.1 dy.1 hh.1 mi.1 0
  else none

/-! ## `parse_date` -/

/-- The sentinel `NaiveDate::from_ymd(1970, 1, 1).and_hms(0, 0, 0)`. -/
def sentinel : DateTime := ⟨⟨1970, 1, 1⟩, 0, 0, 0⟩

/-- The `t.year () < 2000` correction branch of `parse_date`: rebuild the
date via the panicking `NaiveDate::from_ymd (year + 2000, month, day)`
(`none` = panic) and reattach the time. -/
def fixYear (t : DateTime) : Option DateTime :=
  if t.date.year < 2000 then
    (from_ymd_opt (t.date.year + 2000) t.date.month t.date.day).map
      fun dd => ⟨dd, t.hour, t.minute, t.second⟩
  else some t

/-- Model of `parse_date` from the source: try the four patterns in order, apply the
year correction to the first success, fall back to the 1970-01-01 sentinel.
`none` models the (unreachable) `from_ymd` panic. -/
def parse_date (s : String) : Option DateTime :=
  match parseFmt1 s with
  | some t => fixYear t
  | none =>
    match parseFmt2 s with
    | some t => fixYear t
    | none =>
      match parseFmt3 s with
      | some t => fixYear t
      | none =>
        match parseFmt4 s with
        | some t => fixYear t
        | none => some sentinel

/-- Total version of `parse_date` used downstream; it agrees with
`parse_date` everywhere by `parse_date_isSome`. -/
def parse_dateD (s : String) : DateTime := (parse_date s).getD sentinel

/-! ## Rust integer parsing (`str::parse::<u32>` / `::<i32>`) -/

/-- Digits of an integer literal after the optional sign: decimal
accumulation with Rust's per-step overflow check against `bound`. -/
def digitsBounded (bound : Nat) : List Char → Nat → Option Nat
  | [], acc => some acc
  | c :: cs, acc =>
    match digit? c with
    | some d =>
      if acc * 10 + d ≤ bound then digitsBounded bound cs (acc * 10 + d)
      else none
    | none => none

/-- Body of Rust integer `FromStr` after the sign: non-empty all-digit text
within `bound`. -/
def parseDigits (bound : Nat) : List Char → Option Nat
  | [] => none
  | c :: cs =>
    match digit? c with
    | some d => digitsBounded bound cs d
    | none => none

/-- Rust `str::parse::<u32>`: optional `+`, digits, value at most `2^32 - 1`. -/
def parse_u32 (s : String) : Option Nat :=
  match s.data with
  | [] => none
  | c :: cs =>
    if c = '+' then parseDigits 4294967295 cs
    else parseDigits 4294967295 (c :: cs)

/-- Rust `str::parse::<i32>`: optional sign, digits, value in
`[-2^31, 2^31 - 1]`. -/
def parse_i32 (s : String) : Option Int :=
  match s.data with
  | [] => none
  | c :: cs =>
    if c = '+' then (parseDigits 2147483647 cs).map fun n => (n : Int)
    else if c = '-' then (parseDigits 2147483648 cs).map fun n => -(n : Int)
    else (parseDigits 2147483647 (c :: cs)).map fun n => (n : Int)

/-- The unsigned-count coercion of `normalize`: parse failure falls back
to 0. -/
def coerceU32 (t : String) : Nat := (parse_u32 t).getD 0

/-- The signed coercion of the time-series loop: parse failure falls back
to -1. -/
def coerceI32 (t : String) : Int := (parse_i32 t).getD (-1)

/-! ## Row normalization (`normalize` / `to_record`)

A `csv::StringRecord` is a `List String`; `record.get i` is `List.get?`,
which is `none` exactly when the row has at most `i` cells. Coordinate
parsing (`parse::<f32>`) is a caller-supplied `pf : String → Option F`. -/

/-- The intermediate `CsvRecord` of the source. -/
structure CsvRecord (F : Type) where
  province : String
  country : String
  updated : String
  confirmed : Nat
  deaths : Nat
  recovered : Nat
  lat : Option F
  long : Option F

/-- The final `Record` of the source (`updated` parsed to a date-time). -/
structure Record (F : Type) where
  province : String
  country : String
  updated : DateTime
  confirmed : Nat
  deaths : Nat
  recovered : Nat
  lat : Option F
  long : Option F

/-- Model of `normalize` from the source: positional access with per-field
fallbacks. -/
def normalize {F : Type} (pf : String → Option F) (record : List String) :
    CsvRecord F where
  province :=
    match record.get? 0 with
    | some t => t
    | none => ""
  country :=
    match record.get? 1 with
    | some t => t
    | none => ""
  updated :=
    match record.get? 2 with
    | some t => t
    | none => ""
  confirmed :=
    match record.get? 3 with
    | some t =>
      match parse_u32 t with
      | some v => v
      | none => 0
    | none => 0
  deaths :=
    match record.get? 4 with
    | some t =>
      match parse_u32 t with
      | some v => v
      | none => 0
    | none => 0
  recovered :=
    match record.get? 5 with
    | some t =>
      match parse_u32 t with
      | some v => v
      | none => 0
    | none => 0
  lat :=
    match record.get? 6 with
    | some t => pf t
    | none => none
  long :=
    match record.get? 7 with
    | some t => pf t
    | none => none

/-- Model of `to_record` from the source. -/
def to_record {F : Type} (record : CsvRecord F) : Record F where
  province := record.province
  country := record.country
  updated := parse_dateD record.updated
  confirmed := record.confirmed
  deaths := record.deaths
  recovered := record.recovered
  lat := record.lat
  long := record.long

/-! ## Time Series Builder (`get_time_series` inner loop)

The `BTreeMap<String, i32>` keyed by `date.to_string ()` is modelled as an
association list keyed by the date itself (`%Y-%m-%d` rendering is injective
on dates). -/

/-- Map lookup (`BTreeMap::get`). -/
def lookupA : List (Date × Int) → Date → Option Int
  | [], _ => none
  | p :: rest, k => if p.1 = k then some p.2 else lookupA rest k

/-- Map insert (`BTreeMap::insert`): replace an existing key, else add. -/
def insertA : List (Date × Int) → Date → Int → List (Date × Int)
  | [], k, v => [(k, v)]
  | p :: rest, k, v =>
    if p.1 = k then (k, v) :: rest else p :: insertA rest k v

/-- Map removal (`BTreeMap::remove`). -/
def removeA : List (Date × Int) → Date → List (Date × Int)
  | [], _ => []
  | p :: rest, k => if p.1 = k then rest else p :: removeA rest k

/-- The fixed series epoch `NaiveDate::from_ymd(2020, 1, 22)`. -/
def epochDate : Date := ⟨2020, 1, 22⟩

/-- The wide-row loop of `get_time_series`: insert the coerced cell at the
current column under the current date, remove it again if negative, then
advance both column and date. The loop exits at the first absent cell; fuel
only bounds the recursion and suffices whenever
`result.length < i + fuel`. -/
def tsLoop (result : List String) :
    Nat → Date → Nat → List (Date × Int) → List (Date × Int)
  | _, _, 0, m => m
  | i, date, fuel + 1, m =>
    match result.get? i with
    | none => m
    | some t =>
      let m1 := insertA m date (coerceI32 t)
      let m2 :=
        match lookupA m1 date with
        | some v => if v < 0 then removeA m1 date else m1
        | none => m1
      tsLoop result (i + 1) date.succ fuel m2

/-- The `data` mapping built for one wide-format row. -/
def tsData (result : List String) : List (Date × Int) :=
  tsLoop result 4 epochDate (result.length + 1) []

/-- A `TimeSeries` record of the source. -/
structure TimeSeries (F : Type) where
  province : String
  country : String
  lat : Option F
  long : Option F
  data : List (Date × Int)
  state : String

/-- One `TimeSeries` record built from one wide-format row for a metric
`state`. -/
def tsRow {F : Type} (pf : String → Option F) (state : String)
    (result : List String) : TimeSeries F where
  province :=
    match result.get? 0 with
    | some t => t
    | none => ""
  country :=
    match result.get? 1 with
    | some t => t
    | none => ""
  lat :=
    match result.get? 2 with
    | some t => pf t
    | none => none
  long :=
    match result.get? 3 with
    | some t => pf t
    | none => none
  data := tsData result
  state := state

/-- Section 4.5's intended reading of the wide-row walk: coerce the cells one by
one, advancing the date by exactly one day per cell whether or not the cell
is recorded, and omit cells whose coerced value is negative. -/
def tsSpecList : List String → Date → List (Date × Int)
  | [], _ => []
  | t :: rest, date =>
    let v := coerceI32 t
    (if v < 0 then [] else [(date, v)]) ++ tsSpecList rest date.succ

/-- The intended content of the `data` mapping: the date columns are the
cells from index 4 on, walked from the epoch. -/
def tsSpec (result : List String) : List (Date × Int) :=
  tsSpecList (result.drop 4) epochDate

/-! ## Snapshot Aggregator (`get_dates` / `get_data`) -/

/-- The `while date != now` loop of `get_dates`, with `stop` the day after
"today"; fuel only bounds the recursion. -/
def get_datesGo (stop : Date) : Nat → Date → List Date
  | 0, _ => []
  | fuel + 1, date =>
    if date = stop then [] else date :: get_datesGo stop fuel date.succ

/-- Model of `get_dates` from the source, with "today" (from `Utc::now`) an explicit
parameter: all dates from 2020-01-22 up to and including `today`. -/
def get_dates (today : Date) (fuel : Nat) : List Date :=
  get_datesGo today.succ fuel epochDate

/-- The per-country multi-map (`HashMap<String, Vec<Record>>`); insertion
order of countries is kept, which only strengthens what `HashMap` offers. -/
def CountryIndex (F : Type) : Type := List (String × List (Record F))

/-- Grouping step `map.entry(country).or_insert(Vec::new()).push(record)`. -/
def indexInsert {F : Type} :
    CountryIndex F → Record F → CountryIndex F
  | [], r => [(r.country, [r])]
  | p :: rest, r =>
    if p.1 = r.country then (p.1, p.2 ++ [r]) :: rest
    else p :: indexInsert rest r

/-- Model of `get_data_from` for one date, with the fetch-and-structural-parse effect
as an oracle `fetch` returning either the data rows or the propagated
error. -/
def get_data_from {F ε : Type} (pf : String → Option F)
    (fetch : Date → Except ε (List (List String))) (date : Date) :
    Except ε (List (Record F)) :=
  match fetch date with
  | .error e => .error e
  | .ok rows => .ok (rows.map fun row => to_record (normalize pf row))

/-- The accumulation loop of `get_data` over a date list. -/
def get_dataGo {F ε : Type} (pf : String → Option F)
    (fetch : Date → Except ε (List (List String))) :
    List Date → CountryIndex F → Except ε (CountryIndex F)
  | [], m => .ok m
  | d :: ds, m =>
    match get_data_from pf fetch d with
    | .error e => .error e
    | .ok recs => get_dataGo pf fetch ds (recs.foldl indexInsert m)

/-- Model of `get_data` from the source: iterate the generated dates, fetch and
normalize each daily snapshot, and group records by country; any per-date
failure aborts the whole call. -/
def get_data {F ε : Type} (pf : String → Option F)
    (fetch : Date → Except ε (List (List String))) (today : Date)
    (fuel : Nat) : Except ε (CountryIndex F) :=
  get_dataGo pf fetch (get_dates today fuel) []

/-! ## Calendar order lemmas -/

theorem Date.lt_succ (d : Date) : Date.lt d d.succ := by
  unfold Date.succ Date.lt
  split
  · simp
  · split
    · simp
    · simp

theorem Date.lt_trans {a b c : Date} (h1 : Date.lt a b) (h2 : Date.lt b c) :
    Date.lt a c := by
  unfold Date.lt at *
  rcases h1 with h1 | ⟨e1, h1⟩ <;> rcases h2 with h2 | ⟨e2, h2⟩
  · left; omega
  · left; omega
  · left; omega
  · right
    refine ⟨e1.trans e2, ?_⟩
    rcases h1 with h1 | ⟨f1, h1⟩ <;> rcases h2 with h2 | ⟨f2, h2⟩
    · left; omega
    · left; omega
    · left; omega
    · right; exact ⟨f1.trans f2, by omega⟩

theorem Date.lt_irrefl (a : Date) : ¬ Date.lt a a := by
  unfold Date.lt; omega

theorem Date.lt_ne {a b : Date} (h : Date.lt a b) : a ≠ b := by
  rintro rfl; exact Date.lt_irrefl a h

theorem Date.lt_asymm {a b : Date} (h : Date.lt a b) : ¬ Date.lt b a :=
  fun h2 => Date.lt_irrefl a (Date.lt_trans h h2)

theorem Date.succ_iterate_lt (x : Date) {i j : Nat} (h : i < j) :
    Date.lt (Date.succ^[i] x) (Date.succ^[j] x) := by
  induction j with
  | zero => omega
  | succ j ih =>
    have step : Date.lt (Date.succ^[j] x) (Date.succ^[j + 1] x) := by
      rw [Function.iterate_succ_apply']
      exact Date.lt_succ _
    rcases Nat.lt_succ_iff_lt_or_eq.mp h with h' | rfl
    · exact Date.lt_trans (ih h') step
    · exact step

/-! ## `get_dates` characterization -/

theorem iterate_range_succ {α : Type} (g : α → α) (x : α) (n : Nat) :
    (List.range (n + 1)).map (fun i => g^[i] x) =
      x :: (List.range n).map fun i => g^[i] (g x) := by
  rw [List.range_succ_eq_map, List.map_cons, List.map_map]
  have hcomp : (fun i => g^[i] x) ∘ Nat.succ = fun i => g^[i] (g x) := by
    funext i
    simp [Function.comp, Function.iterate_succ_apply]
  rw [hcomp]
  simp

theorem get_datesGo_eq (n : Nat) :
    ∀ (x : Date) (fuel : Nat), n + 2 ≤ fuel →
      get_datesGo (Date.succ^[n + 1] x) fuel x =
        (List.range (n + 1)).map fun i => Date.succ^[i] x := by
  induction n with
  | zero =>
    intro x fuel hf
    obtain ⟨f, rfl⟩ : ∃ f, fuel = f + 1 := ⟨fuel - 1, by omega⟩
    obtain ⟨g, rfl⟩ : ∃ g, f = g + 1 := ⟨f - 1, by omega⟩
    have hne : x ≠ Date.succ^[0 + 1] x := by
      simpa using Date.lt_ne (Date.lt_succ x)
    rw [get_datesGo, if_neg hne, get_datesGo]
    simp [Function.iterate_one]
  | succ n ih =>
    intro x fuel hf
    obtain ⟨f, rfl⟩ : ∃ f, fuel = f + 1 := ⟨fuel - 1, by omega⟩
    have hne : x ≠ Date.succ^[n + 1 + 1] x := by
      have h0 := Date.succ_iterate_lt x (show 0 < n + 1 + 1 by omega)
      simpa using Date.lt_ne h0
    rw [get_datesGo, if_neg hne,
      show Date.succ^[n + 1 + 1] x = Date.succ^[n + 1] (Date.succ x) from
        Function.iterate_succ_apply Date.succ (n + 1) x,
      ih (Date.succ x) f (by omega)]
    conv_rhs => rw [iterate_range_succ]

/-- C7: the generated date sequence starts at 2020-01-22, advances by
exactly one day per element in ascending order (it is the list of the first
`n + 1` successor-iterates of the epoch when "today" is `n` days after the
epoch), contains "today", and contains no date after it. -/
theorem claim_C7_date_range (n fuel : Nat) (hf : n + 2 ≤ fuel) :
    get_dates (Date.succ^[n] epochDate) fuel =
      ((List.range (n + 1)).map fun i => Date.succ^[i] epochDate) ∧
    (get_dates (Date.succ^[n] epochDate) fuel).head? = some epochDate ∧
    Date.succ^[n] epochDate ∈ get_dates (Date.succ^[n] epochDate) fuel ∧
    ∀ d ∈ get_dates (Date.succ^[n] epochDate) fuel,
      ¬ Date.lt (Date.succ^[n] epochDate) d := by
  have key : get_dates (Date.succ^[n] epochDate) fuel =
      (List.range (n + 1)).map fun i => Date.succ^[i] epochDate := by
    unfold get_dates
    rw [show (Date.succ^[n] epochDate).succ = Date.succ^[n + 1] epochDate from
      (Function.iterate_succ_apply' Date.succ n epochDate).symm]
    exact get_datesGo_eq n epochDate fuel hf
  refine ⟨key, ?_, ?_, ?_⟩
  · rw [key, iterate_range_succ]
    simp
  · rw [key]
    exact List.mem_map.mpr ⟨n, List.mem_range.mpr (by omega), rfl⟩
  · rw [key]
    intro d hd
    obtain ⟨i, hi, rfl⟩ := List.mem_map.mp hd
    have hi' : i < n + 1 := List.mem_range.mp hi
    rcases Nat.lt_or_ge i n with h | h
    · exact Date.lt_asymm (Date.succ_iterate_lt epochDate h)
    · have hin : i = n := by omega
      subst hin
      exact Date.lt_irrefl _

/-- Witness for C7 at `n = 0`, `fuel = 2`. -/
theorem claim_C7_witness :
    get_dates epochDate 2 = [epochDate] ∧
    epochDate ∈ get_dates epochDate 2 ∧
    ∀ d ∈ get_dates epochDate 2, ¬ Date.lt epochDate d := by
  have h := claim_C7_date_range 0 2 (by omega)
  simp only [Function.iterate_zero, id_eq] at h
  exact ⟨by simpa using h.1, h.2.2.1, h.2.2.2⟩

/-! ## Association-map lemmas for keys not yet present -/

theorem insertA_fresh (m : List (Date × Int)) (k : Date) (v : Int)
    (h : ∀ p ∈ m, p.1 ≠ k) : insertA m k v = m ++ [(k, v)] := by
  induction m with
  | nil => rfl
  | cons p rest ih =>
    simp only [insertA, List.cons_append]
    rw [if_neg (h p (by simp))]
    rw [ih fun q hq => h q (by simp [hq])]

theorem lookupA_append_fresh (m : List (Date × Int)) (k : Date) (v : Int)
    (h : ∀ p ∈ m, p.1 ≠ k) : lookupA (m ++ [(k, v)]) k = some v := by
  induction m with
  | nil => simp [lookupA]
  | cons p rest ih =>
    simp only [List.cons_append, lookupA]
    rw [if_neg (h p (by simp))]
    exact ih fun q hq => h q (by simp [hq])

theorem removeA_append_fresh (m : List (Date × Int)) (k : Date) (v : Int)
    (h : ∀ p ∈ m, p.1 ≠ k) : removeA (m ++ [(k, v)]) k = m := by
  induction m with
  | nil => simp [removeA]
  | cons p rest ih =>
    simp only [List.cons_append, removeA]
    rw [if_neg (h p (by simp))]
    exact congrArg (fun l => p :: l) (ih fun q hq => h q (by simp [hq]))

/-! ## The time-series loop builds exactly the spec mapping -/

theorem tsLoop_eq (result : List String) :
    ∀ (fuel i : Nat) (date : Date) (m : List (Date × Int)),
      result.length < i + fuel →
      (∀ p ∈ m, Date.lt p.1 date) →
      tsLoop result i date fuel m = m ++ tsSpecList (result.drop i) date := by
  intro fuel
  induction fuel with
  | zero =>
    intro i date m hfuel _
    have hd : result.drop i = [] := List.drop_eq_nil_of_le (by omega)
    simp [tsLoop, hd, tsSpecList]
  | succ fuel ih =>
    intro i date m hfuel hm
    rcases hg : result.get? i with _ | t
    · have hlen : result.length ≤ i := List.get?_eq_none.mp hg
      have hg' : result[i]? = none := by
        rw [← List.get?_eq_getElem?]
        exact hg
      have hd : result.drop i = [] := List.drop_eq_nil_of_le hlen
      simp [tsLoop, hg, hg', hd, tsSpecList]
    · have hlen : i < result.length := by
        rcases List.get?_eq_some.mp hg with ⟨hlt, _⟩
        exact hlt
      have hfresh : ∀ p ∈ m, p.1 ≠ date := fun p hp => Date.lt_ne (hm p hp)
      have hdrop : result.drop i = t :: result.drop (i + 1) := by
        rw [List.drop_eq_get_cons hlen]
        rcases List.get?_eq_some.mp hg with ⟨hlt, hget⟩
        rw [hget]
      simp only [tsLoop, hg, insertA_fresh m date (coerceI32 t) hfresh,
        lookupA_append_fresh m date (coerceI32 t) hfresh]
      by_cases hv : coerceI32 t < 0
      · rw [if_pos hv, removeA_append_fresh m date (coerceI32 t) hfresh,
          ih (i + 1) date.succ m (by omega)
            (fun p hp => Date.lt_trans (hm p hp) (Date.lt_succ date)),
          hdrop, tsSpecList]
        simp [hv]
      · have hinv : ∀ p ∈ m ++ [(date, coerceI32 t)], Date.lt p.1 date.succ := by
          intro p hp
          rcases List.mem_append.mp hp with hp | hp
          · exact Date.lt_trans (hm p hp) (Date.lt_succ date)
          · simp at hp
            rw [hp]
            exact Date.lt_succ date
        rw [if_neg hv,
          ih (i + 1) date.succ (m ++ [(date, coerceI32 t)]) (by omega) hinv,
          hdrop, tsSpecList]
        simp [hv]

theorem Date.succ_iterate_inj {x : Date} {i j : Nat}
    (h : Date.succ^[i] x = Date.succ^[j] x) : i = j := by
  rcases Nat.lt_trichotomy i j with hlt | heq | hgt
  · exact absurd h (Date.lt_ne (Date.succ_iterate_lt x hlt))
  · exact heq
  · exact absurd h.symm (Date.lt_ne (Date.succ_iterate_lt x hgt))

/-- Membership in the spec mapping, characterized by cell index. -/
theorem tsSpecList_mem_iff (cells : List String) :
    ∀ (date : Date) (p : Date × Int),
      p ∈ tsSpecList cells date ↔
        ∃ j t, cells.get? j = some t ∧ coerceI32 t = p.2 ∧ 0 ≤ p.2 ∧
          p.1 = Date.succ^[j] date := by
  induction cells with
  | nil => simp [tsSpecList]
  | cons t rest ih =>
    intro date p
    rw [tsSpecList]
    simp only [List.mem_append]
    constructor
    · rintro (h1 | h2)
      · by_cases hv : coerceI32 t < 0
        · simp [hv] at h1
        · simp only [hv, if_neg, if_false] at h1
          simp at h1
          refine ⟨0, t, by simp, ?_, ?_, ?_⟩
          · rw [h1]
          · rw [h1]; omega
          · rw [h1]; simp
      · obtain ⟨j, u, hj, hv, hnn, hp⟩ := (ih date.succ p).mp h2
        refine ⟨j + 1, u, by simpa using hj, hv, hnn, ?_⟩
        rw [hp, Function.iterate_succ_apply]
    · rintro ⟨j, u, hj, hv, hnn, hp⟩
      cases j with
      | zero =>
        left
        simp only [List.get?] at hj
        have hut : u = t := (Option.some.inj hj).symm
        subst hut
        have hv0 : ¬ coerceI32 u < 0 := by omega
        simp only [hv0, if_neg, if_false]
        simp only [Function.iterate_zero, id_eq] at hp
        have : p = (date, coerceI32 u) := by
          cases p
          simp_all
        simp [this]
      | succ j =>
        right
        apply (ih date.succ p).mpr
        refine ⟨j, u, by simpa using hj, hv, hnn, ?_⟩
        rw [hp, Function.iterate_succ_apply]

/-- C1: the Time Series Builder walks the date columns in lock step with the
calendar — `tsData` equals the spec mapping `tsSpec`; a value `v` is
recorded under `epoch + k` days exactly when column `4 + k` is present and
coerces to the non-negative `v`; and the "Italy" example row yields exactly
the three-entry mapping with 2020-01-24 absent. -/
theorem claim_C1_time_series_lockstep :
    (∀ result : List String, tsData result = tsSpec result) ∧
    (∀ (result : List String) (k : Nat) (v : Int),
      ((Date.succ^[k] epochDate, v) ∈ tsData result ↔
        0 ≤ v ∧ ∃ t, result.get? (4 + k) = some t ∧ coerceI32 t = v)) ∧
    tsData ["", "Italy", "41.87", "12.56", "0", "0", "-1", "3"] =
      [(⟨2020, 1, 22⟩, 0), (⟨2020, 1, 23⟩, 0), (⟨2020, 1, 25⟩, 3)] := by
  have hmain : ∀ result : List String, tsData result = tsSpec result := by
    intro result
    unfold tsData tsSpec
    rw [tsLoop_eq result (result.length + 1) 4 epochDate [] (by omega)
      (by simp)]
    simp
  refine ⟨hmain, ?_, by decide⟩
  intro result k v
  rw [hmain, tsSpec, tsSpecList_mem_iff]
  constructor
  · rintro ⟨j, t, hj, hv, hnn, hp⟩
    have hkj : k = j := Date.succ_iterate_inj hp
    subst hkj
    rw [List.get?_drop] at hj
    exact ⟨hnn, t, hj, hv⟩
  · rintro ⟨hnn, t, ht, hv⟩
    exact ⟨k, t, by rw [List.get?_drop]; exact ht, hv, hnn, rfl⟩

/-! ## Snapshot Aggregator error propagation -/

theorem get_dataGo_error {F ε : Type} (pf : String → Option F)
    (fetch : Date → Except ε (List (List String))) (e : ε) :
    ∀ (pre : List Date) (d : Date) (post : List Date) (m : CountryIndex F),
      (∀ d2 ∈ pre, ∃ rows, fetch d2 = .ok rows) →
      fetch d = .error e →
      get_dataGo pf fetch (pre ++ d :: post) m = .error e := by
  intro pre
  induction pre with
  | nil =>
    intro d post m _ hd
    simp only [List.nil_append, get_dataGo, get_data_from, hd]
  | cons q pre ih =>
    intro d post m hpre hd
    obtain ⟨rows, hq⟩ := hpre q (by simp)
    simp only [List.cons_append, get_dataGo, get_data_from, hq]
    exact ih d post _ (fun d2 h2 => hpre d2 (by simp [h2])) hd

/-- C8: if the fetch (or structural parse) for any date in the generated
range fails while all earlier dates succeed, the whole `get_data` call
returns exactly that error; no `CountryIndex` accumulated from earlier
dates reaches the caller, as the error constructor carries none. -/
theorem claim_C8_failure_propagates {F ε : Type} (pf : String → Option F)
    (fetch : Date → Except ε (List (List String))) (today : Date)
    (fuel : Nat) (pre : List Date) (d : Date) (post : List Date) (e : ε)
    (hsplit : get_dates today fuel = pre ++ d :: post)
    (hpre : ∀ d2 ∈ pre, ∃ rows, fetch d2 = .ok rows)
    (hd : fetch d = .error e) :
    get_data pf fetch today fuel = .error e := by
  unfold get_data
  rw [hsplit]
  exact get_dataGo_error pf fetch e pre d post [] hpre hd

/-- Witness for C8: a one-date range whose single fetch fails. -/
theorem claim_C8_witness :
    get_data (fun _ => (none : Option Unit))
      (fun d => if d = epochDate then Except.error (0 : Nat)
        else Except.ok ([] : List (List String)))
      epochDate 2 = Except.error 0 := by
  apply claim_C8_failure_propagates
    (fun _ => (none : Option Unit))
    (fun d => if d = epochDate then Except.error (0 : Nat)
      else Except.ok ([] : List (List String)))
    epochDate 2 [] epochDate []
  · decide
  · intro d2 h2
    exact absurd h2 (by simp)
  · simp

/-! ## Row Normalizer: frame over the first eight cells -/

/-- C9: `normalize` reads only positions 0–7, so any row yields the same
`CsvRecord` as its own first eight cells. -/
theorem claim_C9_first_eight_cells {F : Type} (pf : String → Option F)
    (row : List String) : normalize pf row = normalize pf (row.take 8) := by
  have h : ∀ i, i < 8 → (row.take 8).get? i = row.get? i :=
    fun i hi => List.get?_take hi
  unfold normalize
  rw [h 0 (by omega), h 1 (by omega), h 2 (by omega), h 3 (by omega),
    h 4 (by omega), h 5 (by omega), h 6 (by omega), h 7 (by omega)]

/-! ## Row Normalizer: short rows take per-field fallbacks -/

/-- C6: `normalize` is total on rows of any length — each field missing from
a short row takes its fallback (empty string, 0, or absent) — and the 3-cell
"Hubei" row yields exactly the documented record, with its update time
parsed to 2020-01-22T17:00:00. -/
theorem claim_C6_short_row_fallbacks {F : Type} (pf : String → Option F)
    (row : List String) :
    (row.length ≤ 0 → (normalize pf row).province = "") ∧
    (row.length ≤ 1 → (normalize pf row).country = "") ∧
    (row.length ≤ 2 → (normalize pf row).updated = "") ∧
    (row.length ≤ 3 → (normalize pf row).confirmed = 0) ∧
    (row.length ≤ 4 → (normalize pf row).deaths = 0) ∧
    (row.length ≤ 5 → (normalize pf row).recovered = 0) ∧
    (row.length ≤ 6 → (normalize pf row).lat = none) ∧
    (row.length ≤ 7 → (normalize pf row).long = none) ∧
    to_record (normalize pf ["Hubei", "China", "2020-01-22T17:00:00"]) =
      ⟨"Hubei", "China", ⟨⟨2020, 1, 22⟩, 17, 0, 0⟩, 0, 0, 0, none, none⟩ := by
  refine ⟨?_, ?_, ?_, ?_, ?_, ?_, ?_, ?_, rfl⟩ <;>
    · intro h
      simp only [normalize]
      rw [List.get?_eq_none.mpr (by omega)]

/-- Witness for C6 at the 3-cell "Hubei" row and the empty row. -/
theorem claim_C6_witness :
    (normalize (fun _ => (none : Option Unit))
        ["Hubei", "China", "2020-01-22T17:00:00"]).confirmed = 0 ∧
    (normalize (fun _ => (none : Option Unit))
        ["Hubei", "China", "2020-01-22T17:00:00"]).lat = none ∧
    (normalize (fun _ => (none : Option Unit))
        ["Hubei", "China", "2020-01-22T17:00:00"]).long = none ∧
    (normalize (fun _ => (none : Option Unit)) ([] : List String)).province
      = "" ∧
    to_record (normalize (fun _ => (none : Option Unit))
        ["Hubei", "China", "2020-01-22T17:00:00"]) =
      ⟨"Hubei", "China", ⟨⟨2020, 1, 22⟩, 17, 0, 0⟩, 0, 0, 0, none, none⟩ := by
  have h1 := claim_C6_short_row_fallbacks (fun _ => (none : Option Unit))
    ["Hubei", "China", "2020-01-22T17:00:00"]
  have h2 := claim_C6_short_row_fallbacks (fun _ => (none : Option Unit))
    ([] : List String)
  exact ⟨h1.2.2.2.1 (by simp), h1.2.2.2.2.2.2.1 (by simp),
    h1.2.2.2.2.2.2.2.1 (by simp), h2.1 (by simp),
    h1.2.2.2.2.2.2.2.2⟩

/-! ## 32-bit count coercion -/

theorem digit?_le {c : Char} {d : Nat} (h : digit? c = some d) : d ≤ 9 := by
  unfold digit? at h
  split at h
  · injection h with h
    omega
  · cases h

theorem digitsBounded_le (bound : Nat) :
    ∀ (cs : List Char) (acc v : Nat), digitsBounded bound cs acc = some v →
      acc ≤ bound → v ≤ bound := by
  intro cs
  induction cs with
  | nil =>
    intro acc v h hb
    simp only [digitsBounded] at h
    injection h with h
    omega
  | cons c cs ih =>
    intro acc v h hb
    simp only [digitsBounded] at h
    rcases hd : digit? c with _ | d <;> simp only [hd] at h
    · cases h
    · by_cases hle : acc * 10 + d ≤ bound
      · rw [if_pos hle] at h
        exact ih _ _ h hle
      · rw [if_neg hle] at h
        cases h

theorem parseDigits_le {bound : Nat} (hb : 9 ≤ bound) (cs : List Char)
    (v : Nat) (h : parseDigits bound cs = some v) : v ≤ bound := by
  cases cs with
  | nil => cases h
  | cons c cs =>
    simp only [parseDigits] at h
    rcases hd : digit? c with _ | d <;> simp only [hd] at h
    · cases h
    · exact digitsBounded_le bound cs d v h ((digit?_le hd).trans hb)

theorem parse_u32_le (s : String) (v : Nat) (h : parse_u32 s = some v) :
    v ≤ 4294967295 := by
  unfold parse_u32 at h
  rcases hdata : s.data with _ | ⟨c, cs⟩ <;> simp only [hdata] at h
  · cases h
  · by_cases hc : c = '+'
    · rw [if_pos hc] at h
      exact parseDigits_le (by omega) cs v h
    · rw [if_neg hc] at h
      exact parseDigits_le (by omega) (c :: cs) v h

/-- The numeric value of a digit string (non-digits count as 0). -/
def digitsVal (cs : List Char) : Nat :=
  cs.foldl (fun a c => a * 10 + (digit? c).getD 0) 0

theorem digitsBounded_val (bound : Nat) :
    ∀ (cs : List Char) (acc v : Nat), digitsBounded bound cs acc = some v →
      v = cs.foldl (fun a c => a * 10 + (digit? c).getD 0) acc := by
  intro cs
  induction cs with
  | nil =>
    intro acc v h
    simp only [digitsBounded] at h
    injection h with h
    simp [h.symm]
  | cons c cs ih =>
    intro acc v h
    simp only [digitsBounded] at h
    rcases hd : digit? c with _ | d <;> simp only [hd] at h
    · cases h
    · by_cases hle : acc * 10 + d ≤ bound
      · rw [if_pos hle] at h
        rw [List.foldl_cons, hd]
        simpa using ih _ _ h
      · rw [if_neg hle] at h
        cases h

theorem parseDigits_val {bound : Nat} (cs : List Char) (v : Nat)
    (h : parseDigits bound cs = some v) : v = digitsVal cs := by
  cases cs with
  | nil => cases h
  | cons c cs =>
    simp only [parseDigits] at h
    rcases hd : digit? c with _ | d <;> simp only [hd] at h
    · cases h
    · rw [digitsVal, List.foldl_cons, hd]
      simpa using digitsBounded_val bound cs d v h

/-- C10: the count fields go through `u32` parsing, so every record's
counts fit in 32 bits; a leading minus sign, a value above `2^32 - 1`, and
any other parse failure all fall back to 0. -/
theorem claim_C10_count_coercion :
    (∀ (F : Type) (pf : String → Option F) (row : List String),
      (normalize pf row).confirmed ≤ 4294967295 ∧
      (normalize pf row).deaths ≤ 4294967295 ∧
      (normalize pf row).recovered ≤ 4294967295) ∧
    (∀ cs : List Char, parse_u32 (String.mk ('-' :: cs)) = none) ∧
    (∀ cs : List Char, 4294967295 < digitsVal cs →
      parse_u32 (String.mk cs) = none) ∧
    (∀ s : String, parse_u32 s = none → coerceU32 s = 0) := by
  have hfield : ∀ (o : Option String),
      (match o with
        | some t =>
          match parse_u32 t with
          | some v => v
          | none => 0
        | none => 0) ≤ 4294967295 := by
    intro o
    rcases o with _ | t
    · simp
    · show (match parse_u32 t with
        | some v => v
        | none => 0) ≤ 4294967295
      rcases hp : parse_u32 t with _ | v <;> simp only [hp]
      · omega
      · exact parse_u32_le t v hp
  refine ⟨?_, ?_, ?_, ?_⟩
  · intro F pf row
    exact ⟨hfield _, hfield _, hfield _⟩
  · intro cs
    have : ¬ ('-' : Char) = '+' := by decide
    simp only [parse_u32, this, if_false]
    simp only [parseDigits, show digit? '-' = none from by decide]
  · intro cs hbig
    rcases hp : parse_u32 (String.mk cs) with _ | v
    · rfl
    · exfalso
      have hle : v ≤ 4294967295 := parse_u32_le _ v hp
      unfold parse_u32 at hp
      rcases cs with _ | ⟨c, cs'⟩
      · cases hp
      · simp only [show (String.mk (c :: cs')).data = c :: cs' from rfl] at hp
        by_cases hc : c = '+'
        · rw [if_pos hc] at hp
          have hv : v = digitsVal cs' := parseDigits_val cs' v hp
          have : digitsVal (c :: cs') = digitsVal cs' := by
            subst hc
            simp [digitsVal, show digit? '+' = none from by decide]
          omega
        · rw [if_neg hc] at hp
          have hv : v = digitsVal (c :: cs') := parseDigits_val (c :: cs') v hp
          omega
  · intro s h
    unfold coerceU32
    rw [h]
    rfl

/-- Witness for C10: `4294967296 = 2^32` falls back (parses to `none`). -/
theorem claim_C10_witness :
    parse_u32 (String.mk ['4', '2', '9', '4', '9', '6', '7', '2', '9', '6'])
      = none :=
  claim_C10_count_coercion.2.2.1
    ['4', '2', '9', '4', '9', '6', '7', '2', '9', '6'] (by decide)

/-! ## Year-shift lemmas: adding 2000 preserves leap structure -/

theorem isLeap_add2000 (y : Int) : isLeap (y + 2000) = isLeap y := by
  unfold isLeap
  rw [show (y + 2000) % 4 = y % 4 by omega,
    show (y + 2000) % 100 = y % 100 by omega,
    show (y + 2000) % 400 = y % 400 by omega]

theorem daysInMonth_add2000 (y : Int) (m : Nat) :
    daysInMonth (y + 2000) m = daysInMonth y m := by
  unfold daysInMonth
  rw [isLeap_add2000]

theorem dateValid_add2000 {y : Int} {m d : Nat}
    (hv : dateValid y m d = true) (hy : y < 2000) :
    dateValid (y + 2000) m d = true := by
  unfold dateValid at hv ⊢
  rw [daysInMonth_add2000]
  simp only [decide_eq_true_eq] at hv ⊢
  omega

theorem dateValid_shift_down {y : Int} {m d : Nat}
    (h : dateValid (y + 2000) m d = true) (h1 : -262144 ≤ y)
    (h2 : y ≤ 262143) : dateValid y m d = true := by
  unfold dateValid at h ⊢
  rw [daysInMonth_add2000] at h
  simp only [decide_eq_true_eq] at h ⊢
  omega

/-! ## Inversion of date-time resolution and the parsers -/

theorem from_ymd_opt_some {y : Int} {m d : Nat} {dd : Date}
    (h : from_ymd_opt y m d = some dd) :
    dateValid y m d = true ∧ dd = ⟨y, m, d⟩ := by
  unfold from_ymd_opt at h
  split at h
  · injection h with h
    exact ⟨by assumption, h.symm⟩
  · cases h

theorem mkDateTime_some {y : Int} {m d h mi s : Nat} {t : DateTime}
    (hmk : mkDateTime y m d h mi s = some t) :
    dateValid y m d = true ∧ t.date = ⟨y, m, d⟩ := by
  unfold mkDateTime at hmk
  rw [Option.bind_eq_some] at hmk
  obtain ⟨dd, hdd, hif⟩ := hmk
  obtain ⟨hv, rfl⟩ := from_ymd_opt_some hdd
  refine ⟨hv, ?_⟩
  split at hif
  · injection hif with hif
    rw [← hif]
  · cases hif

theorem parseFmt1_valid {s : String} {t : DateTime}
    (h : parseFmt1 s = some t) :
    dateValid t.date.year t.date.month t.date.day = true := by
  unfold parseFmt1 at h
  simp only [Option.bind_eq_some] at h
  obtain ⟨yr, -, r1, -, mo, -, r2, -, dy, -, r3, -, hh, -, r4, -, mi, -,
    r5, -, ss, -, h⟩ := h
  split at h
  · obtain ⟨hv, hdate⟩ := mkDateTime_some h
    rw [hdate]
    exact hv
  · cases h

theorem parseFmt2_valid {s : String} {t : DateTime}
    (h : parseFmt2 s = some t) :
    dateValid t.date.year t.date.month t.date.day = true := by
  unfold parseFmt2 at h
  simp only [Option.bind_eq_some] at h
  obtain ⟨yr, -, r1, -, mo, -, r2, -, dy, -, hh, -, r4, -, mi, -,
    r5, -, ss, -, h⟩ := h
  split at h
  · obtain ⟨hv, hdate⟩ := mkDateTime_some h
    rw [hdate]
    exact hv
  · cases h

theorem parseFmt3_valid {s : String} {t : DateTime}
    (h : parseFmt3 s = some t) :
    dateValid t.date.year t.date.month t.date.day = true := by
  unfold parseFmt3 at h
  simp only [Option.bind_eq_some] at h
  obtain ⟨mo, -, r1, -, dy, -, yy, -, hh, -, r4, -, mi, -, h⟩ := h
  split at h
  · obtain ⟨hv, hdate⟩ := mkDateTime_some h
    rw [hdate]
    exact hv
  · cases h

theorem parseFmt4_valid {s : String} {t : DateTime}
    (h : parseFmt4 s = some t) :
    dateValid t.date.year t.date.month t.date.day = true := by
  unfold parseFmt4 at h
  simp only [Option.bind_eq_some] at h
  obtain ⟨mo, -, r1, -, dy, -, r2, -, yr, -, hh, -, r4, -, mi, -, h⟩ := h
  split at h
  · obtain ⟨hv, hdate⟩ := mkDateTime_some h
    rw [hdate]
    exact hv
  · cases h

/-! ## The year correction never panics -/

theorem fixYear_ge {t : DateTime} (h : 2000 ≤ t.date.year) :
    fixYear t = some t := by
  unfold fixYear
  rw [if_neg (by omega)]

theorem fixYear_lt {t : DateTime} (h2 : t.date.year < 2000)
    (hv : dateValid (t.date.year + 2000) t.date.month t.date.day = true) :
    fixYear t =
      some ⟨⟨t.date.year + 2000, t.date.month, t.date.day⟩,
        t.hour, t.minute, t.second⟩ := by
  unfold fixYear from_ymd_opt
  rw [if_pos h2, if_pos hv]
  rfl

theorem fixYear_total {t : DateTime}
    (hv : dateValid t.date.year t.date.month t.date.day = true) :
    ∃ u, fixYear t = some u := by
  by_cases hy : t.date.year < 2000
  · exact ⟨_, fixYear_lt hy (dateValid_add2000 hv hy)⟩
  · exact ⟨t, fixYear_ge (by omega)⟩

theorem parse_date_total (s : String) : ∃ t, parse_date s = some t := by
  unfold parse_date
  rcases h1 : parseFmt1 s with _ | t1 <;> simp only [h1]
  · rcases h2 : parseFmt2 s with _ | t2 <;> simp only [h2]
    · rcases h3 : parseFmt3 s with _ | t3 <;> simp only [h3]
      · rcases h4 : parseFmt4 s with _ | t4 <;> simp only [h4]
        · exact ⟨sentinel, rfl⟩
        · exact fixYear_total (parseFmt4_valid h4)
      · exact fixYear_total (parseFmt3_valid h3)
    · exact fixYear_total (parseFmt2_valid h2)
  · exact fixYear_total (parseFmt1_valid h1)

/-- C4: the Date Disambiguator is total — it always returns a value (the
`from_ymd` rebuild in the correction can never panic), and on a string
matched by none of the four patterns it returns exactly the sentinel
1970-01-01T00:00:00. -/
theorem claim_C4_total_and_sentinel (s : String) :
    (∃ t, parse_date s = some t) ∧
    (parseFmt1 s = none → parseFmt2 s = none → parseFmt3 s = none →
      parseFmt4 s = none → parse_date s = some sentinel) := by
  refine ⟨parse_date_total s, ?_⟩
  intro h1 h2 h3 h4
  unfold parse_date
  simp only [h1, h2, h3, h4]

/-- Witness for C4 at a string no pattern matches. -/
theorem claim_C4_witness : parse_date ("not a date") = some sentinel :=
  (claim_C4_total_and_sentinel ("not a date")).2
    (by decide) (by decide) (by decide) (by decide)

/-- C5: whichever pattern is the first to match, the parsed value `t` is
post-processed uniformly — a parsed year below 2000 is returned with 2000
added to the year and month/day/hour/minute/second unchanged, and a parsed
year of 2000 or more is returned as-is. -/
theorem claim_C5_year_correction (s : String) (t : DateTime)
    (hfirst :
      parseFmt1 s = some t ∨
      (parseFmt1 s = none ∧ parseFmt2 s = some t) ∨
      (parseFmt1 s = none ∧ parseFmt2 s = none ∧ parseFmt3 s = some t) ∨
      (parseFmt1 s = none ∧ parseFmt2 s = none ∧ parseFmt3 s = none ∧
        parseFmt4 s = some t)) :
    (t.date.year < 2000 →
      parse_date s =
        some ⟨⟨t.date.year + 2000, t.date.month, t.date.day⟩,
          t.hour, t.minute, t.second⟩) ∧
    (2000 ≤ t.date.year → parse_date s = some t) := by
  have hv : dateValid t.date.year t.date.month t.date.day = true := by
    rcases hfirst with h | ⟨-, h⟩ | ⟨-, -, h⟩ | ⟨-, -, -, h⟩
    exacts [parseFmt1_valid h, parseFmt2_valid h, parseFmt3_valid h,
      parseFmt4_valid h]
  have hpd : parse_date s = fixYear t := by
    unfold parse_date
    rcases hfirst with h | ⟨h1, h⟩ | ⟨h1, h2, h⟩ | ⟨h1, h2, h3, h⟩
    · simp only [h]
    · simp only [h1, h]
    · simp only [h1, h2, h]
    · simp only [h1, h2, h3, h]
  constructor
  · intro hy
    rw [hpd]
    exact fixYear_lt hy (dateValid_add2000 hv hy)
  · intro hy
    rw [hpd]
    exact fixYear_ge hy

/-- Witness for C5: a first-pattern match with year 99 is corrected
to 2099. -/
theorem claim_C5_witness :
    parse_date ("0099-01-02T03:04:05") = some ⟨⟨2099, 1, 2⟩, 3, 4, 5⟩ := by
  have h := claim_C5_year_correction ("0099-01-02T03:04:05")
    ⟨⟨99, 1, 2⟩, 3, 4, 5⟩ (Or.inl (by decide))
  have h2 := h.1 (by decide)
  norm_num at h2
  exact h2

/-- C3 (the code slip): the source's third format string is `"%m/%d%y %H:%M"`
— the `/` between day and year is missing — so it rejects the well-formed
`MM/DD/YY` string "1/22/20 17:00" (which the spec's `MM/DD/YY HH:MM` pattern
accepts, and which the code only handles because the fourth pattern's `%Y`
accepts a two-digit year), while it accepts the malformed "1/2220 17:00",
which the spec's four patterns all reject. -/
theorem claim_C3_third_pattern_slip :
    parseFmt3 ("1/22/20 17:00") = none ∧
    parseFmt3Spec ("1/22/20 17:00") = some ⟨⟨2020, 1, 22⟩, 17, 0, 0⟩ ∧
    parseFmt4 ("1/22/20 17:00") = some ⟨⟨20, 1, 22⟩, 17, 0, 0⟩ ∧
    parse_date ("1/22/20 17:00") = some ⟨⟨2020, 1, 22⟩, 17, 0, 0⟩ ∧
    parseFmt3 ("1/2220 17:00") = some ⟨⟨2020, 1, 22⟩, 17, 0, 0⟩ ∧
    parseFmt3Spec ("1/2220 17:00") = none ∧
    parseFmt1 ("1/2220 17:00") = none ∧
    parseFmt2 ("1/2220 17:00") = none ∧
    parseFmt4 ("1/2220 17:00") = none ∧
    parse_date ("1/2220 17:00") = some ⟨⟨2020, 1, 22⟩, 17, 0, 0⟩ := by
  decide

/-- C2 counterexample: "1999-01-01T00:00:00" is correctly formatted in the
first supported format and encodes 1999-01-01T00:00:00, but the
disambiguator returns 3999-01-01T00:00:00 (the year correction applies to
any parsed year below 2000). -/
theorem claim_C2_counterexample :
    parse_date ("1999-01-01T00:00:00") = some ⟨⟨3999, 1, 1⟩, 0, 0, 0⟩ ∧
    parse_date ("1999-01-01T00:00:00") ≠ some ⟨⟨1999, 1, 1⟩, 0, 0, 0⟩ := by
  decide

/-! ## Canonical (zero-padded) renderings of the four formats -/

/-- Two-digit zero-padded decimal rendering. -/
def pad2 (n : Nat) : List Char := [dChar (n / 10), dChar (n % 10)]

/-- Four-digit zero-padded decimal rendering. -/
def pad4 (n : Nat) : List Char :=
  [dChar (n / 1000), dChar (n / 100 % 10), dChar (n / 10 % 10), dChar (n % 10)]

/-- A string correctly formatted as `YYYY-MM-DDTHH:MM:SS`. -/
def render1 (y m d h mi s : Nat) : String :=
  ⟨pad4 y ++ '-' :: pad2 m ++ '-' :: pad2 d ++ 'T' :: pad2 h ++
    ':' :: pad2 mi ++ ':' :: pad2 s⟩

/-- A string correctly formatted as `YYYY-MM-DD HH:MM:SS`. -/
def render2 (y m d h mi s : Nat) : String :=
  ⟨pad4 y ++ '-' :: pad2 m ++ '-' :: pad2 d ++ ' ' :: pad2 h ++
    ':' :: pad2 mi ++ ':' :: pad2 s⟩

/-- A string correctly formatted as `MM/DD/YY HH:MM`. -/
def render3 (yy m d h mi : Nat) : String :=
  ⟨pad2 m ++ '/' :: pad2 d ++ '/' :: pad2 yy ++ ' ' :: pad2 h ++
    ':' :: pad2 mi⟩

/-- A string correctly formatted as `MM/DD/YYYY HH:MM`. -/
def render4 (y m d h mi : Nat) : String :=
  ⟨pad2 m ++ '/' :: pad2 d ++ '/' :: pad4 y ++ ' ' :: pad2 h ++
    ':' :: pad2 mi⟩

/-! ## Scanning canonical digit groups -/

theorem mk_data (l : List Char) : (String.mk l).data = l := rfl

theorem pad2_cons (n : Nat) (rest : List Char) :
    pad2 n ++ rest = dChar (n / 10) :: dChar (n % 10) :: rest := rfl

theorem pad4_cons (n : Nat) (rest : List Char) :
    pad4 n ++ rest =
      dChar (n / 1000) :: dChar (n / 100 % 10) :: dChar (n / 10 % 10) ::
        dChar (n % 10) :: rest := rfl

theorem digit?_dChar {n : Nat} (h : n ≤ 9) : digit? (dChar n) = some n := by
  interval_cases n <;> decide

theorem wsChar_dChar {n : Nat} (h : n ≤ 9) : wsChar (dChar n) = false := by
  interval_cases n <;> decide

theorem dChar_ne_minus {n : Nat} (h : n ≤ 9) : dChar n ≠ '-' := by
  interval_cases n <;> decide

theorem dChar_ne_plus {n : Nat} (h : n ≤ 9) : dChar n ≠ '+' := by
  interval_cases n <;> decide

theorem skipWs_dChar {n : Nat} (h : n ≤ 9) (l : List Char) :
    skipWs (dChar n :: l) = dChar n :: l := by
  simp [skipWs, List.dropWhile_cons, wsChar_dChar h]

theorem skipWs_space (l : List Char) : skipWs (' ' :: l) = skipWs l := by
  simp [skipWs, List.dropWhile_cons, show wsChar ' ' = true from by decide]

theorem scanNum2_digits {n : Nat} (h : n ≤ 99) (rest : List Char) :
    scanNum 2 (dChar (n / 10) :: dChar (n % 10) :: rest) = some (n, rest) := by
  have h1 : n / 10 ≤ 9 := by omega
  have h2 : n % 10 ≤ 9 := by omega
  unfold scanNum
  simp only [digit?_dChar h1, digit?_dChar h2, scanDigits]
  rw [show n / 10 * 10 + n % 10 = n from by omega]

theorem scanNum4_digits4 {n : Nat} (h : n ≤ 9999) (rest : List Char) :
    scanNum 4 (dChar (n / 1000) :: dChar (n / 100 % 10) ::
      dChar (n / 10 % 10) :: dChar (n % 10) :: rest) = some (n, rest) := by
  have h1 : n / 1000 ≤ 9 := by omega
  have h2 : n / 100 % 10 ≤ 9 := by omega
  have h3 : n / 10 % 10 ≤ 9 := by omega
  have h4 : n % 10 ≤ 9 := by omega
  unfold scanNum
  simp only [digit?_dChar h1, digit?_dChar h2, digit?_dChar h3,
    digit?_dChar h4, scanDigits]
  rw [show ((n / 1000 * 10 + n / 100 % 10) * 10 + n / 10 % 10) * 10 + n % 10
    = n from by omega]

theorem scanNum4_digits2 {n : Nat} (h : n ≤ 99) {c : Char}
    (hc : digit? c = none) (rest : List Char) :
    scanNum 4 (dChar (n / 10) :: dChar (n % 10) :: c :: rest) =
      some (n, c :: rest) := by
  have h1 : n / 10 ≤ 9 := by omega
  have h2 : n % 10 ≤ 9 := by omega
  unfold scanNum
  simp only [digit?_dChar h1, digit?_dChar h2, hc, scanDigits]
  rw [show n / 10 * 10 + n % 10 = n from by omega]

theorem num2_digits {n : Nat} (h : n ≤ 99) (rest : List Char) :
    num 2 (dChar (n / 10) :: dChar (n % 10) :: rest) = some (n, rest) := by
  have h1 : n / 10 ≤ 9 := by omega
  unfold num
  rw [skipWs_dChar h1]
  exact scanNum2_digits h rest

theorem num_nondigit {c : Char} (hw : wsChar c = false)
    (hc : digit? c = none) (mx : Nat) (rest : List Char) :
    num mx (c :: rest) = none := by
  unfold num
  rw [show skipWs (c :: rest) = c :: rest from by
    simp [skipWs, List.dropWhile_cons, hw]]
  unfold scanNum
  simp only [hc]

theorem pyear_digits4 {n : Nat} (h : n ≤ 9999) (rest : List Char) :
    pyear (dChar (n / 1000) :: dChar (n / 100 % 10) :: dChar (n / 10 % 10) ::
      dChar (n % 10) :: rest) = some ((n : Int), rest) := by
  have h1 : n / 1000 ≤ 9 := by omega
  unfold pyear
  rw [skipWs_dChar h1]
  simp only [if_neg (dChar_ne_minus h1), if_neg (dChar_ne_plus h1),
    scanNum4_digits4 h rest]
  rfl

theorem pyear_digits2 {n : Nat} (h : n ≤ 99) {c : Char}
    (hc : digit? c = none) (rest : List Char) :
    pyear (dChar (n / 10) :: dChar (n % 10) :: c :: rest) =
      some ((n : Int), c :: rest) := by
  have h1 : n / 10 ≤ 9 := by omega
  unfold pyear
  rw [skipWs_dChar h1]
  simp only [if_neg (dChar_ne_minus h1), if_neg (dChar_ne_plus h1),
    scanNum4_digits2 h hc rest]
  rfl

/-- Signed `%Y` regression checks: chrono accepts an optional sign, so
"+2020-…" parses via the first pattern, and a negative parsed year goes
through the `< 2000` correction ("-0001" → year −1 → 1999). -/
theorem parse_date_signed_years :
    parse_date ("+2020-01-22T00:00:00") = some ⟨⟨2020, 1, 22⟩, 0, 0, 0⟩ ∧
    parse_date ("-0001-01-02T03:04:05") = some ⟨⟨1999, 1, 2⟩, 3, 4, 5⟩ := by
  decide

/-- POSIX `%y` pivot regression check: 69 resolves to 1969 (not 2069), so
the correction then yields 3969. -/
theorem parse_date_y69_pivot :
    parse_date ("1/2269 17:00") = some ⟨⟨3969, 1, 22⟩, 17, 0, 0⟩ := by
  decide

theorem lit_cons (c : Char) (rest : List Char) :
    lit c (c :: rest) = some rest := by
  simp [lit]

theorem lit_ne {x c : Char} (h : ¬ x = c) (rest : List Char) :
    lit c (x :: rest) = none := by
  simp [lit, h]

theorem mkDateTime_pos {y : Int} {m d h mi s : Nat}
    (hv : dateValid y m d = true) (hh : h ≤ 23) (hmi : mi ≤ 59)
    (hs : s ≤ 59) :
    mkDateTime y m d h mi s = some ⟨⟨y, m, d⟩, h, mi, s⟩ := by
  unfold mkDateTime from_ymd_opt
  rw [if_pos hv]
  simp only [Option.some_bind]
  rw [if_pos (⟨hh, hmi, by omega⟩ : h ≤ 23 ∧ mi ≤ 59 ∧ s ≤ 60),
    if_neg (show ¬ s = 60 by omega)]

theorem daysInMonth_le (y : Int) (m : Nat) : daysInMonth y m ≤ 31 := by
  unfold daysInMonth
  split
  · split <;> omega
  · split <;> omega

theorem dateValid_bounds {y : Int} {m d : Nat}
    (hv : dateValid y m d = true) : m ≤ 99 ∧ d ≤ 99 := by
  unfold dateValid at hv
  simp only [decide_eq_true_eq] at hv
  have := daysInMonth_le y m
  omega

/-! ## Round trips of the four patterns on canonical renderings -/

theorem parseFmt1_render1 {y m d h mi s : Nat} (hy : y ≤ 9999)
    (hv : dateValid (y : Int) m d = true) (hh : h ≤ 23) (hmi : mi ≤ 59)
    (hs : s ≤ 59) :
    parseFmt1 (render1 y m d h mi s) =
      some ⟨⟨(y : Int), m, d⟩, h, mi, s⟩ := by
  obtain ⟨hm99, hd99⟩ := dateValid_bounds hv
  unfold parseFmt1 render1
  simp only [mk_data, pad2, pad4, List.cons_append, List.nil_append,
    List.append_assoc, pyear_digits4 hy, lit_cons,
    num2_digits hm99, num2_digits hd99, num2_digits (show h ≤ 99 by omega),
    num2_digits (show mi ≤ 99 by omega), num2_digits (show s ≤ 99 by omega),
    Option.some_bind, List.isEmpty_nil, eq_self_iff_true, if_true]
  exact mkDateTime_pos hv hh hmi hs

theorem parseFmt1_render2_none {y m d h mi s : Nat} (hy : y ≤ 9999)
    (hm99 : m ≤ 99) (hd99 : d ≤ 99) :
    parseFmt1 (render2 y m d h mi s) = none := by
  unfold parseFmt1 render2
  simp only [mk_data, pad2, pad4, List.cons_append, List.nil_append,
    List.append_assoc, pyear_digits4 hy, lit_cons,
    num2_digits hm99, num2_digits hd99,
    lit_ne (show ¬ (' ' : Char) = 'T' from by decide), Option.some_bind,
    Option.none_bind]

theorem parseFmt2_render2 {y m d h mi s : Nat} (hy : y ≤ 9999)
    (hv : dateValid (y : Int) m d = true) (hh : h ≤ 23) (hmi : mi ≤ 59)
    (hs : s ≤ 59) :
    parseFmt2 (render2 y m d h mi s) =
      some ⟨⟨(y : Int), m, d⟩, h, mi, s⟩ := by
  obtain ⟨hm99, hd99⟩ := dateValid_bounds hv
  unfold parseFmt2 render2
  simp only [mk_data, pad2, pad4, List.cons_append, List.nil_append,
    List.append_assoc, pyear_digits4 hy, lit_cons,
    num2_digits hm99, num2_digits hd99, Option.some_bind, skipWs_space,
    skipWs_dChar (show h / 10 ≤ 9 by omega),
    num2_digits (show h ≤ 99 by omega), num2_digits (show mi ≤ 99 by omega),
    num2_digits (show s ≤ 99 by omega), List.isEmpty_nil, eq_self_iff_true,
    if_true]
  exact mkDateTime_pos hv hh hmi hs

theorem parseFmt1_slash_none {m : Nat} (hm : m ≤ 99) (rest : List Char) :
    parseFmt1 ⟨dChar (m / 10) :: dChar (m % 10) :: '/' :: rest⟩ = none := by
  unfold parseFmt1
  simp only [mk_data,
    pyear_digits2 hm (show digit? '/' = none from by decide),
    lit_ne (show ¬ ('/' : Char) = '-' from by decide), Option.some_bind,
    Option.none_bind]

theorem parseFmt2_slash_none {m : Nat} (hm : m ≤ 99) (rest : List Char) :
    parseFmt2 ⟨dChar (m / 10) :: dChar (m % 10) :: '/' :: rest⟩ = none := by
  unfold parseFmt2
  simp only [mk_data,
    pyear_digits2 hm (show digit? '/' = none from by decide),
    lit_ne (show ¬ ('/' : Char) = '-' from by decide), Option.some_bind,
    Option.none_bind]

theorem parseFmt3_mdslash_none {m d : Nat} (hm : m ≤ 99) (hd : d ≤ 99)
    (rest : List Char) :
    parseFmt3 ⟨dChar (m / 10) :: dChar (m % 10) :: '/' :: dChar (d / 10) ::
      dChar (d % 10) :: '/' :: rest⟩ = none := by
  unfold parseFmt3
  simp only [mk_data, pad2, pad4, List.cons_append, List.nil_append,
    List.append_assoc, num2_digits hm, lit_cons, num2_digits hd,
    num_nondigit (show wsChar '/' = false from by decide)
      (show digit? '/' = none from by decide),
    Option.some_bind, Option.none_bind]

theorem parseFmt1_render3_none {yy m d h mi : Nat} (hm99 : m ≤ 99) :
    parseFmt1 (render3 yy m d h mi) = none := by
  have e : render3 yy m d h mi =
      ⟨dChar (m / 10) :: dChar (m % 10) :: '/' ::
        (pad2 d ++ '/' :: pad2 yy ++ ' ' :: pad2 h ++ ':' :: pad2 mi)⟩ := rfl
  rw [e, parseFmt1_slash_none hm99]

theorem parseFmt2_render3_none {yy m d h mi : Nat} (hm99 : m ≤ 99) :
    parseFmt2 (render3 yy m d h mi) = none := by
  have e : render3 yy m d h mi =
      ⟨dChar (m / 10) :: dChar (m % 10) :: '/' ::
        (pad2 d ++ '/' :: pad2 yy ++ ' ' :: pad2 h ++ ':' :: pad2 mi)⟩ := rfl
  rw [e, parseFmt2_slash_none hm99]

theorem parseFmt3_render3_none {yy m d h mi : Nat} (hm99 : m ≤ 99)
    (hd99 : d ≤ 99) :
    parseFmt3 (render3 yy m d h mi) = none := by
  have e : render3 yy m d h mi =
      ⟨dChar (m / 10) :: dChar (m % 10) :: '/' :: dChar (d / 10) ::
        dChar (d % 10) :: '/' :: (pad2 yy ++ ' ' :: pad2 h ++ ':' :: pad2 mi)⟩
    := rfl
  rw [e, parseFmt3_mdslash_none hm99 hd99]

theorem parseFmt4_render3 {yy m d h mi : Nat} (hyy : yy ≤ 99) (hm99 : m ≤ 99)
    (hd99 : d ≤ 99) (hvyy : dateValid (yy : Int) m d = true) (hh : h ≤ 23)
    (hmi : mi ≤ 59) :
    parseFmt4 (render3 yy m d h mi) =
      some ⟨⟨(yy : Int), m, d⟩, h, mi, 0⟩ := by
  unfold parseFmt4 render3
  simp only [mk_data, pad2, pad4, List.cons_append, List.nil_append,
    List.append_assoc, num2_digits hm99, lit_cons, num2_digits hd99,
    pyear_digits2 hyy (show digit? ' ' = none from by decide),
    Option.some_bind, skipWs_space, skipWs_dChar (show h / 10 ≤ 9 by omega),
    num2_digits (show h ≤ 99 by omega), num2_digits (show mi ≤ 99 by omega),
    List.isEmpty_nil, eq_self_iff_true, if_true]
  exact mkDateTime_pos hvyy hh hmi (show (0 : Nat) ≤ 59 from by omega)

theorem parseFmt1_render4_none {y m d h mi : Nat} (hm99 : m ≤ 99) :
    parseFmt1 (render4 y m d h mi) = none := by
  have e : render4 y m d h mi =
      ⟨dChar (m / 10) :: dChar (m % 10) :: '/' ::
        (pad2 d ++ '/' :: pad4 y ++ ' ' :: pad2 h ++ ':' :: pad2 mi)⟩ := rfl
  rw [e, parseFmt1_slash_none hm99]

theorem parseFmt2_render4_none {y m d h mi : Nat} (hm99 : m ≤ 99) :
    parseFmt2 (render4 y m d h mi) = none := by
  have e : render4 y m d h mi =
      ⟨dChar (m / 10) :: dChar (m % 10) :: '/' ::
        (pad2 d ++ '/' :: pad4 y ++ ' ' :: pad2 h ++ ':' :: pad2 mi)⟩ := rfl
  rw [e, parseFmt2_slash_none hm99]

theorem parseFmt3_render4_none {y m d h mi : Nat} (hm99 : m ≤ 99)
    (hd99 : d ≤ 99) :
    parseFmt3 (render4 y m d h mi) = none := by
  have e : render4 y m d h mi =
      ⟨dChar (m / 10) :: dChar (m % 10) :: '/' :: dChar (d / 10) ::
        dChar (d % 10) :: '/' :: (pad4 y ++ ' ' :: pad2 h ++ ':' :: pad2 mi)⟩
    := rfl
  rw [e, parseFmt3_mdslash_none hm99 hd99]

theorem parseFmt4_render4 {y m d h mi : Nat} (hy : y ≤ 9999)
    (hv : dateValid (y : Int) m d = true) (hh : h ≤ 23) (hmi : mi ≤ 59) :
    parseFmt4 (render4 y m d h mi) = some ⟨⟨(y : Int), m, d⟩, h, mi, 0⟩ := by
  obtain ⟨hm99, hd99⟩ := dateValid_bounds hv
  unfold parseFmt4 render4
  simp only [mk_data, pad2, pad4, List.cons_append, List.nil_append,
    List.append_assoc, num2_digits hm99, lit_cons, num2_digits hd99,
    pyear_digits4 hy, Option.some_bind, skipWs_space,
    skipWs_dChar (show h / 10 ≤ 9 by omega),
    num2_digits (show h ≤ 99 by omega), num2_digits (show mi ≤ 99 by omega),
    List.isEmpty_nil, eq_self_iff_true, if_true]
  exact mkDateTime_pos hv hh hmi (show (0 : Nat) ≤ 59 from by omega)

/-- C2 (amended): every correctly formatted string whose encoded 4-digit
year is at least 2000 parses to exactly the encoded date-time (seconds 0 for
the two formats without a seconds field), and the two-digit-year form
resolves to year + 2000. The only change from the original claim is the
restriction of the 4-digit-year forms to encoded years at least 2000, which
the counterexample forces: the uniform year correction rewrites any parsed
year below 2000. -/
theorem claim_C2_roundtrip_amended (y m d h mi s : Nat) (hy2000 : 2000 ≤ y)
    (hy : y ≤ 9999) (hv : dateValid (y : Int) m d = true) (hh : h ≤ 23)
    (hmi : mi ≤ 59) (hs : s ≤ 59) :
    parse_date (render1 y m d h mi s) =
      some ⟨⟨(y : Int), m, d⟩, h, mi, s⟩ ∧
    parse_date (render2 y m d h mi s) =
      some ⟨⟨(y : Int), m, d⟩, h, mi, s⟩ ∧
    parse_date (render4 y m d h mi) = some ⟨⟨(y : Int), m, d⟩, h, mi, 0⟩ ∧
    (∀ yy : Nat, yy ≤ 99 → dateValid ((2000 + yy : Nat) : Int) m d = true →
      parse_date (render3 yy m d h mi) =
        some ⟨⟨(yy : Int) + 2000, m, d⟩, h, mi, 0⟩) := by
  obtain ⟨hm99, hd99⟩ := dateValid_bounds hv
  refine ⟨?_, ?_, ?_, ?_⟩
  · unfold parse_date
    simp only [parseFmt1_render1 hy hv hh hmi hs]
    exact fixYear_ge (show (2000 : Int) ≤ (y : Int) by omega)
  · unfold parse_date
    simp only [parseFmt1_render2_none hy hm99 hd99,
      parseFmt2_render2 hy hv hh hmi hs]
    exact fixYear_ge (show (2000 : Int) ≤ (y : Int) by omega)
  · unfold parse_date
    simp only [parseFmt1_render4_none hm99, parseFmt2_render4_none hm99,
      parseFmt3_render4_none hm99 hd99, parseFmt4_render4 hy hv hh hmi]
    exact fixYear_ge (show (2000 : Int) ≤ (y : Int) by omega)
  · intro yy hyy hv2
    have hv2' : dateValid ((yy : Int) + 2000) m d = true := by
      have e : ((2000 + yy : Nat) : Int) = (yy : Int) + 2000 := by
        push_cast
        ring
      rw [e] at hv2
      exact hv2
    have hvyy : dateValid ((yy : Int)) m d = true :=
      dateValid_shift_down hv2' (by omega) (by omega)
    unfold parse_date
    simp only [parseFmt1_render3_none hm99, parseFmt2_render3_none hm99,
      parseFmt3_render3_none hm99 hd99,
      parseFmt4_render3 hyy hm99 hd99 hvyy hh hmi]
    exact fixYear_lt (show ((yy : Int)) < 2000 by omega) hv2'

/-- Witness for C2 (amended) at 2020-01-22 17:30:45 and the two-digit
year 20. -/
theorem claim_C2_witness :
    parse_date (render1 2020 1 22 17 30 45) =
      some ⟨⟨2020, 1, 22⟩, 17, 30, 45⟩ ∧
    parse_date (render3 20 1 22 17 30) = some ⟨⟨2020, 1, 22⟩, 17, 30, 0⟩ := by
  have hc := claim_C2_roundtrip_amended 2020 1 22 17 30 45 (by omega)
    (by omega) (by decide) (by omega) (by omega) (by omega)
  refine ⟨hc.1, ?_⟩
  have h3 := hc.2.2.2 20 (by omega) (by decide)
  norm_num at h3
  exact h3

end CoronaStats
